import Mathlib

/-!
Verification of the VARC-Practice client against its specification.

The repository is a browser-based mock-test app.  Its core logic lives in
three files: `js/storage.js` (the `StorageManager` persistence layer over
`localStorage` + JSON serialization), `js/app.js` (the `VARCApp` controller:
question status state machine, scoring, submission) and `js/analytics.js`
(the `Analytics` aggregator).  This development shallowly embeds that logic:

* `localStorage` is a partial map from string keys to stored strings; the
  platform's `JSON.stringify` / `JSON.parse` builtins are modelled by an
  executable serializer `jsonStringify` and parser `jsonParse` over `JSVal`
  (JavaScript numbers are embedded as exact integers — the app only ever
  stores integer-valued numbers: indices, marks, epoch milliseconds).
* `StorageManager`'s primitives and derived operations are translated
  read-modify-write through that string store, mirroring `storage.js`.
* The `VARCApp` controller operations on answers/statuses, scoring
  (`calculateResults`) and submission (`submitTest`) are translated over
  typed assoc-list maps, mirroring `app.js` line by line; the persistence
  round trip between the two layers is proved exact separately.
* `Analytics.getTagInsights` is translated from `analytics.js`, with
  `Math.round(100 * c / a)` modelled as exact rational rounding.
-/

/-! ### JavaScript / JSON values

`JSVal` is the universe of values the app stores: it mirrors what
`JSON.stringify` accepts.  Numbers are exact integers (see header note). -/

inductive JSVal where
  | null
  | bool (b : Bool)
  | num (n : Int)
  | str (s : String)
  | arr (elems : List JSVal)
  | obj (fields : List (String × JSVal))

mutual

/-- Decidable structural equality on values (JS `===` on the primitives the
app compares, extended structurally to arrays and objects). -/
def decEqJSVal : (a b : JSVal) → Decidable (a = b)
  | .null, .null => isTrue rfl
  | .null, .bool _ => isFalse (fun h => JSVal.noConfusion h)
  | .null, .num _ => isFalse (fun h => JSVal.noConfusion h)
  | .null, .str _ => isFalse (fun h => JSVal.noConfusion h)
  | .null, .arr _ => isFalse (fun h => JSVal.noConfusion h)
  | .null, .obj _ => isFalse (fun h => JSVal.noConfusion h)
  | .bool _, .null => isFalse (fun h => JSVal.noConfusion h)
  | .bool a, .bool b =>
      if h : a = b then isTrue (h ▸ rfl)
      else isFalse (fun hh => h (JSVal.bool.inj hh))
  | .bool _, .num _ => isFalse (fun h => JSVal.noConfusion h)
  | .bool _, .str _ => isFalse (fun h => JSVal.noConfusion h)
  | .bool _, .arr _ => isFalse (fun h => JSVal.noConfusion h)
  | .bool _, .obj _ => isFalse (fun h => JSVal.noConfusion h)
  | .num _, .null => isFalse (fun h => JSVal.noConfusion h)
  | .num _, .bool _ => isFalse (fun h => JSVal.noConfusion h)
  | .num a, .num b =>
      if h : a = b then isTrue (h ▸ rfl)
      else isFalse (fun hh => h (JSVal.num.inj hh))
  | .num _, .str _ => isFalse (fun h => JSVal.noConfusion h)
  | .num _, .arr _ => isFalse (fun h => JSVal.noConfusion h)
  | .num _, .obj _ => isFalse (fun h => JSVal.noConfusion h)
  | .str _, .null => isFalse (fun h => JSVal.noConfusion h)
  | .str _, .bool _ => isFalse (fun h => JSVal.noConfusion h)
  | .str _, .num _ => isFalse (fun h => JSVal.noConfusion h)
  | .str a, .str b =>
      if h : a = b then isTrue (h ▸ rfl)
      else isFalse (fun hh => h (JSVal.str.inj hh))
  | .str _, .arr _ => isFalse (fun h => JSVal.noConfusion h)
  | .str _, .obj _ => isFalse (fun h => JSVal.noConfusion h)
  | .arr _, .null => isFalse (fun h => JSVal.noConfusion h)
  | .arr _, .bool _ => isFalse (fun h => JSVal.noConfusion h)
  | .arr _, .num _ => isFalse (fun h => JSVal.noConfusion h)
  | .arr _, .str _ => isFalse (fun h => JSVal.noConfusion h)
  | .arr xs, .arr ys =>
      match decEqJSValList xs ys with
      | isTrue h => isTrue (h ▸ rfl)
      | isFalse h => isFalse (fun hh => h (JSVal.arr.inj hh))
  | .arr _, .obj _ => isFalse (fun h => JSVal.noConfusion h)
  | .obj _, .null => isFalse (fun h => JSVal.noConfusion h)
  | .obj _, .bool _ => isFalse (fun h => JSVal.noConfusion h)
  | .obj _, .num _ => isFalse (fun h => JSVal.noConfusion h)
  | .obj _, .str _ => isFalse (fun h => JSVal.noConfusion h)
  | .obj _, .arr _ => isFalse (fun h => JSVal.noConfusion h)
  | .obj fs, .obj gs =>
      match decEqJSValFields fs gs with
      | isTrue h => isTrue (h ▸ rfl)
      | isFalse h => isFalse (fun hh => h (JSVal.obj.inj hh))

/-- Decidable equality of value lists. -/
def decEqJSValList : (xs ys : List JSVal) → Decidable (xs = ys)
  | [], [] => isTrue rfl
  | [], _ :: _ => isFalse (fun h => List.noConfusion h)
  | _ :: _, [] => isFalse (fun h => List.noConfusion h)
  | x :: xs, y :: ys =>
      match decEqJSVal x y with
      | isFalse h1 => isFalse (fun h => h1 (List.cons.inj h).1)
      | isTrue h1 =>
          match decEqJSValList xs ys with
          | isTrue h2 => isTrue (h1 ▸ h2 ▸ rfl)
          | isFalse h2 => isFalse (fun h => h2 (List.cons.inj h).2)

/-- Decidable equality of field lists. -/
def decEqJSValFields :
    (fs gs : List (String × JSVal)) → Decidable (fs = gs)
  | [], [] => isTrue rfl
  | [], _ :: _ => isFalse (fun h => List.noConfusion h)
  | _ :: _, [] => isFalse (fun h => List.noConfusion h)
  | (k, v) :: fs, (k2, v2) :: gs =>
      if hk : k = k2 then
        match decEqJSVal v v2 with
        | isFalse h1 =>
            isFalse (fun h => h1 (congrArg Prod.snd (List.cons.inj h).1))
        | isTrue h1 =>
            match decEqJSValFields fs gs with
            | isTrue h2 => isTrue (hk ▸ h1 ▸ h2 ▸ rfl)
            | isFalse h2 => isFalse (fun h => h2 (List.cons.inj h).2)
      else isFalse (fun h => hk (congrArg Prod.fst (List.cons.inj h).1))

end

instance : DecidableEq JSVal := decEqJSVal

/-- The opening curly bracket character (written via its code point). -/

def lcurly : Char := Char.ofNat 123

/-- The closing curly bracket character (written via its code point). -/

def rcurly : Char := Char.ofNat 125

/-- JS truthiness on `JSVal`: `null`, `false`, `0` and the empty string are
falsy; every array or object is truthy. -/

def jsTruthy : JSVal → Bool
  | .null => false
  | .bool b => b
  | .num n => n != 0
  | .str s => s != ""
  | .arr _ => true
  | .obj _ => true

/-- Decimal digit character for a digit value `d < 10`. -/

def digitCh (d : Nat) : Char := Char.ofNat (48 + d)

/-- Decimal digit run of a natural number, most significant digit first
(`"0"` for zero), exactly as JS `String(n)` renders an integer. -/

def natChars (n : Nat) : List Char :=
  if n = 0 then [digitCh 0] else (Nat.digits 10 n).reverse.map digitCh

/-- Character rendering of an integer: optional minus sign, then digits. -/

def intChars (n : Int) : List Char :=
  if n < 0 then '-' :: natChars n.natAbs else natChars n.natAbs

/-- JSON string-body escaping: quote and backslash get a backslash prefix
(the only escapes `jsonStringify` emits). -/

def escChars : List Char → List Char
  | [] => []
  | c :: cs =>
      if c = '"' ∨ c = '\\' then '\\' :: c :: escChars cs else c :: escChars cs

/-- The rendering of a boolean keyword. -/
def boolChars (b : Bool) : List Char :=
  if b then 't' :: 'r' :: 'u' :: 'e' :: [] else 'f' :: 'a' :: 'l' :: 's' :: 'e' :: []

/-- A JSON string literal: opening quote, escaped body, closing quote. -/

def strChars (s : String) : List Char :=
  '"' :: (escChars s.toList ++ ['"'])

mutual

/-- Characters of the JSON rendering of a value (no whitespace, like
`JSON.stringify`). -/
def jsChars : JSVal → List Char
  | .null => 'n' :: 'u' :: 'l' :: 'l' :: []
  | .bool b => boolChars b
  | .num n => intChars n
  | .str s => strChars s
  | .arr elems => '[' :: (arrBody elems ++ [']'])
  | .obj fields => lcurly :: (objBody fields ++ [rcurly])

/-- Comma-separated renderings of array elements. -/
def arrBody : List JSVal → List Char
  | [] => []
  | v :: vs => jsChars v ++ arrSep vs

/-- Continuation of an array body: each further element preceded by a comma. -/
def arrSep : List JSVal → List Char
  | [] => []
  | v :: vs => ',' :: (jsChars v ++ arrSep vs)

/-- Comma-separated renderings of object fields. -/
def objBody : List (String × JSVal) → List Char
  | [] => []
  | f :: fs => fieldChars f ++ objSep fs

/-- Continuation of an object body: each further field preceded by a comma. -/
def objSep : List (String × JSVal) → List Char
  | [] => []
  | f :: fs => ',' :: (fieldChars f ++ objSep fs)

/-- Rendering of one object field: quoted key, colon, value. -/
def fieldChars : String × JSVal → List Char
  | (k, v) => strChars k ++ ':' :: jsChars v

end

/-- The model of the platform's `JSON.stringify`. -/

def jsonStringify (v : JSVal) : String := String.mk (jsChars v)

/-! ### The JSON parser (model of `JSON.parse`)

A recursive-descent parser over character lists, total via a fuel counter.
It accepts exactly the serializer's output grammar (no whitespace — which is
all `JSON.stringify` emits), and rejects anything it cannot read, modelling
`JSON.parse` throwing a `SyntaxError`. -/

/-- Decimal digit test on a character (code points 48–57). -/

def isDigitCh (c : Char) : Bool := 48 ≤ c.toNat && c.toNat ≤ 57

/-- Split off the leading run of decimal digits. -/

def grabDigits : List Char → List Char × List Char
  | [] => ([], [])
  | c :: cs =>
      if isDigitCh c then
        let p := grabDigits cs
        (c :: p.1, p.2)
      else ([], c :: cs)

/-- Numeric value of a digit run, most significant digit first. -/

def digitsVal (ds : List Char) : Nat :=
  ds.foldl (fun a c => a * 10 + (c.toNat - 48)) 0

/-- Parse a nonempty digit run into a natural number. -/

def parseNatNum (cs : List Char) : Option (Nat × List Char) :=
  let p := grabDigits cs
  if p.1 = [] then none else some (digitsVal p.1, p.2)

/-- Parse an integer literal: optional minus sign, then digits. -/

def parseNumber (cs : List Char) : Option (JSVal × List Char) :=
  match cs with
  | [] => none
  | c :: rest =>
      if c = '-' then
        (parseNatNum rest).map fun p => (JSVal.num (-(p.1 : Int)), p.2)
      else
        (parseNatNum (c :: rest)).map fun p => (JSVal.num (p.1 : Int), p.2)

/-- Parse a string body after the opening quote, up to the closing quote,
undoing backslash escapes. -/

def parseStrBody : List Char → Option (List Char × List Char)
  | [] => none
  | c :: cs =>
      if c = '"' then some ([], cs)
      else if c = '\\' then
        match cs with
        | [] => none
        | e :: cs2 => (parseStrBody cs2).map fun p => (e :: p.1, p.2)
      else (parseStrBody cs).map fun p => (c :: p.1, p.2)

mutual

/-- Parse a JSON value.  The fuel bounds the nesting depth; the top-level
entry point supplies more fuel than any value serialized into the input
can need. -/
def parseVal (fuel : Nat) (cs : List Char) : Option (JSVal × List Char) :=
  match fuel with
  | 0 => none
  | fuel + 1 =>
    match cs with
    | [] => none
    | c :: rest =>
        if c = 'n' then
          match rest with
          | 'u' :: 'l' :: 'l' :: r => some (.null, r)
          | _ => none
        else if c = 't' then
          match rest with
          | 'r' :: 'u' :: 'e' :: r => some (.bool true, r)
          | _ => none
        else if c = 'f' then
          match rest with
          | 'a' :: 'l' :: 's' :: 'e' :: r => some (.bool false, r)
          | _ => none
        else if c = '"' then
          match parseStrBody rest with
          | some p => some (.str (String.mk p.1), p.2)
          | none => none
        else if c = '[' then
          match parseItems fuel rest with
          | some p => some (.arr p.1, p.2)
          | none => none
        else if c = lcurly then
          match parseFields fuel rest with
          | some p => some (.obj p.1, p.2)
          | none => none
        else if c = '-' ∨ isDigitCh c then parseNumber (c :: rest)
        else none

/-- Parse the inside of an array after the opening bracket: either an
immediate closing bracket, or comma-separated values up to one. -/
def parseItems (fuel : Nat) (cs : List Char) : Option (List JSVal × List Char) :=
  match fuel with
  | 0 => none
  | fuel + 1 =>
    match cs with
    | [] => none
    | c :: rest =>
        if c = ']' then some ([], rest)
        else
          match parseVal fuel (c :: rest) with
          | none => none
          | some (v, r1) =>
            match r1 with
            | [] => none
            | c2 :: r2 =>
                if c2 = ',' then
                  (parseItems fuel r2).map fun p => (v :: p.1, p.2)
                else if c2 = ']' then some ([v], r2)
                else none

/-- Parse the inside of an object after the opening bracket: either an
immediate closing bracket, or comma-separated quoted-key/value pairs. -/
def parseFields (fuel : Nat) (cs : List Char) :
    Option (List (String × JSVal) × List Char) :=
  match fuel with
  | 0 => none
  | fuel + 1 =>
    match cs with
    | [] => none
    | c :: rest =>
        if c = rcurly then some ([], rest)
        else if c = '"' then
          match parseStrBody rest with
          | none => none
          | some (k, r1) =>
            match r1 with
            | ':' :: r2 =>
                match parseVal fuel r2 with
                | none => none
                | some (v, r3) =>
                  match r3 with
                  | [] => none
                  | c2 :: r4 =>
                      if c2 = ',' then
                        (parseFields fuel r4).map
                          fun p => ((String.mk k, v) :: p.1, p.2)
                      else if c2 = rcurly then some ([(String.mk k, v)], r4)
                      else none
            | _ => none
        else none

end

/-- The model of the platform's `JSON.parse`: parse with ample fuel and
require the whole input to be consumed; `none` models a `SyntaxError`. -/

def jsonParse (s : String) : Option JSVal :=
  match parseVal (s.length + 1) s.toList with
  | some (v, []) => some v
  | _ => none

/-! ### Round trip: the parser inverts the serializer -/

/-- Does the input start with a decimal digit?  A rendered number followed by
such a remainder would be mis-tokenized, so the round-trip lemmas exclude it;
every delimiter the serializer emits after a number qualifies. -/

def digitStart : List Char → Bool
  | [] => false
  | c :: _ => isDigitCh c

mutual

/-- Node count of a value; bounds the fuel the parser needs on its rendering. -/
def jsize : JSVal → Nat
  | .arr elems => 1 + jsizeArr elems
  | .obj fields => 1 + jsizeObj fields
  | _ => 1

/-- Node count of an array body. -/
def jsizeArr : List JSVal → Nat
  | [] => 0
  | v :: vs => 1 + jsize v + jsizeArr vs

/-- Node count of an object body. -/
def jsizeObj : List (String × JSVal) → Nat
  | [] => 0
  | f :: fs => 1 + jsize f.2 + jsizeObj fs

end

/-! ### The persistence store (`storage.js`)

`localStorage` is a partial map from keys to stored strings.  `save`, `load`
and `remove` mirror `StorageManager.save/load/remove`; quota errors (the
`try/catch` around `setItem`) are not modelled — the claims under study do
not concern them. -/

/-- The browser's `localStorage`, restricted to this app's keys. -/

def Store := String → Option String

/-- Storage key for user answers (`KEYS.USER_ANSWERS`). -/

def KEY_USER_ANSWERS : String := "varc_user_answers"

/-- Storage key for question statuses (`KEYS.QUESTION_STATUS`). -/

def KEY_QUESTION_STATUS : String := "varc_question_status"

/-- Storage key for the timer state (`KEYS.TIMER_STATE`). -/

def KEY_TIMER_STATE : String := "varc_timer_state"

namespace StorageManager

/-- `StorageManager.save`: `localStorage.setItem(key, JSON.stringify(data))`. -/
def save (st : Store) (key : String) (data : JSVal) : Store :=
  fun k => if k = key then some (jsonStringify data) else st k

/-- `StorageManager.load`: reads `getItem(key)`; a missing key, a falsy
(empty) stored string, or a `JSON.parse` failure all yield `defaultValue`
(the source's `data ? JSON.parse(data) : defaultValue` inside `try/catch`). -/
def load (st : Store) (key : String) (defaultValue : JSVal) : JSVal :=
  match st key with
  | none => defaultValue
  | some data =>
      if data = "" then defaultValue
      else
        match jsonParse data with
        | some v => v
        | none => defaultValue

/-- `StorageManager.remove`: `localStorage.removeItem(key)`. -/
def remove (st : Store) (key : String) : Store :=
  fun k => if k = key then none else st k

end StorageManager

/-! ### Generic association-list operations

JS objects the app uses are modelled as association lists in property
insertion order.  `setEntry` models property assignment (replace in place or
append), `removeEntry` models `delete`, `lookupEntry` models property read
(`none` = `undefined`). -/

/-- Property read on an association list. -/

def lookupEntry {κ α : Type} [DecidableEq κ] : List (κ × α) → κ → Option α
  | [], _ => none
  | (k2, v) :: es, k => if k2 = k then some v else lookupEntry es k

/-- Property assignment: overwrite the existing entry or append a new one. -/

def setEntry {κ α : Type} [DecidableEq κ] : List (κ × α) → κ → α → List (κ × α)
  | [], k, v => [(k, v)]
  | (k2, v2) :: es, k, v =>
      if k2 = k then (k2, v) :: es else (k2, v2) :: setEntry es k v

/-- Property deletion: drop every entry with the key. -/

def removeEntry {κ α : Type} [DecidableEq κ] (es : List (κ × α)) (k : κ) :
    List (κ × α) :=
  es.filter (fun e => e.1 ≠ k)

/-! ### JS object operations on `JSVal`

Property access/assignment/deletion on a `JSVal`.  On a non-object value,
assignment and deletion are silent no-ops and reads yield `undefined`,
matching sloppy-mode JS on primitives. -/

/-- Property read (`undefined` = `none`). -/

def objGet : JSVal → String → Option JSVal
  | .obj fields, k => lookupEntry fields k
  | _, _ => none

/-- Property assignment. -/

def objSet : JSVal → String → JSVal → JSVal
  | .obj fields, k, v => .obj (setEntry fields k v)
  | other, _, _ => other

/-- Property deletion. -/

def objDelete : JSVal → String → JSVal
  | .obj fields, k => .obj (removeEntry fields k)
  | other, _ => other

/-- `Object.keys` (empty on primitives). -/

def objKeys : JSVal → List String
  | .obj fields => fields.map Prod.fst
  | _ => []

/-- Is the value an object?  The derived storage operations read-modify-write
an object; their contracts assume the stored value (when present) is one. -/

def JSVal.isObj : JSVal → Prop
  | .obj _ => True
  | _ => False

namespace StorageManager

/-- `StorageManager.saveAnswer`: loads the answers object (default `{}`),
writes `answers[questionIndex] = answer`, and saves it back.  The numeric
index is coerced to a property key string, as JS does. -/
def saveAnswer (st : Store) (questionIndex : Nat) (answer : JSVal) : Store :=
  let answers := load st KEY_USER_ANSWERS (.obj [])
  save st KEY_USER_ANSWERS (objSet answers (toString questionIndex) answer)

/-- `StorageManager.getAnswer`: reads `answers[questionIndex]`, mapping
`undefined` to `null` — modelled as an `Option` (`none` = `null`). -/
def getAnswer (st : Store) (questionIndex : Nat) : Option JSVal :=
  let answers := load st KEY_USER_ANSWERS (.obj [])
  objGet answers (toString questionIndex)

/-- `StorageManager.clearAnswer`: deletes `answers[questionIndex]` and saves
the object back. -/
def clearAnswer (st : Store) (questionIndex : Nat) : Store :=
  let answers := load st KEY_USER_ANSWERS (.obj [])
  save st KEY_USER_ANSWERS (objDelete answers (toString questionIndex))

end StorageManager

namespace StorageManager

/-- `StorageManager.saveQuestionStatus`: writes `statuses[questionIndex] =
status` into the statuses object (default `{}`) and saves it back. -/
def saveQuestionStatus (st : Store) (questionIndex : Nat) (status : String) : Store :=
  let statuses := load st KEY_QUESTION_STATUS (.obj [])
  save st KEY_QUESTION_STATUS (objSet statuses (toString questionIndex) (.str status))

/-- `StorageManager.getQuestionStatus`: `statuses[questionIndex] ||
'not-visited'` — an absent or falsy stored value falls back to the default. -/
def getQuestionStatus (st : Store) (questionIndex : Nat) : JSVal :=
  let statuses := load st KEY_QUESTION_STATUS (.obj [])
  match objGet statuses (toString questionIndex) with
  | some v => if jsTruthy v then v else .str "not-visited"
  | none => .str "not-visited"

/-- The all-`not-visited` statuses object over indices `0 .. totalQuestions-1`
that `initializeStatuses` writes on first initialization. -/
def freshStatuses (totalQuestions : Nat) : List (String × JSVal) :=
  (List.range totalQuestions).map fun i => (toString i, JSVal.str "not-visited")

/-- `StorageManager.initializeStatuses`: writes the fresh all-`not-visited`
map only when the stored statuses object has no keys; otherwise the call
leaves the store untouched. -/
def initStatuses (st : Store) (totalQuestions : Nat) : Store :=
  let existingStatuses := load st KEY_QUESTION_STATUS (.obj [])
  if (objKeys existingStatuses).length = 0 then
    save st KEY_QUESTION_STATUS (.obj (freshStatuses totalQuestions))
  else st

/-- `StorageManager.saveTimerState`: stores `remainingSeconds` together with
the save instant (`Date.now()`, passed explicitly as `now`). -/
def saveTimerState (st : Store) (remainingSeconds : Int) (now : Int) : Store :=
  save st KEY_TIMER_STATE
    (.obj [("remainingSeconds", .num remainingSeconds), ("savedAt", .num now)])

/-- `StorageManager.getTimerState`: loads the timer state (default `null`,
falsy, yielding `none`) and returns the stored remaining seconds minus the
floor of the elapsed wall-clock seconds since the save, clamped at `0`.
`Math.floor` of a division by the positive constant `1000` is floor
division, `Int.fdiv`.  Non-numeric fields would give `NaN` in JS; they are
modelled as `none` and never arise from `saveTimerState`. -/
def getTimerState (st : Store) (now : Int) : Option Int :=
  let timerState := load st KEY_TIMER_STATE .null
  if jsTruthy timerState then
    match objGet timerState "remainingSeconds", objGet timerState "savedAt" with
    | some (.num remainingSeconds), some (.num savedAt) =>
        some (max 0 (remainingSeconds - Int.fdiv (now - savedAt) 1000))
    | _, _ => none
  else none

end StorageManager

/-- A store with nothing persisted yet. -/

def emptyStore : Store := fun _ => none

/-- A store whose user-answers key holds text that is not valid JSON. -/

def corruptStore : Store :=
  fun k => if k = KEY_USER_ANSWERS then some "\x7b" else none

/-! ### The quiz controller (`app.js`)

The controller reads and writes its answers/statuses maps exclusively through
`StorageManager`, whose persistence round trip is exact (proved above), so
the state machine is modelled directly over the two typed maps: user answers
(`questionIndex -> value`, absent = unanswered) and question statuses
(`questionIndex -> status string`).  Each operation mirrors its `app.js`
method; rendering, palette and statistics-display side effects are UI-only
and omitted. -/

/-- The five status strings of `storage.js` / spec section 3. -/

def validStatus (s : String) : Prop :=
  s = "not-visited" ∨ s = "not-answered" ∨ s = "answered" ∨
    s = "review" ∨ s = "review-answered"

instance (s : String) : Decidable (validStatus s) := by
  unfold validStatus
  infer_instance

/-- Per-session mutable state the status state machine touches. -/

structure TestSession where
  answers : List (Nat × JSVal)
  statuses : List (Nat × String)
deriving DecidableEq

/-- Status read with the `'not-visited'` fallback (`statuses[i] ||
'not-visited'`): absent or falsy (empty-string) entries give the default. -/

def getStatus (statuses : List (Nat × String)) (i : Nat) : String :=
  match lookupEntry statuses i with
  | some s => if s = "" then "not-visited" else s
  | none => "not-visited"

/-- `VARCApp.loadQuestion` (status effect): rejected outside bounds; promotes
a `not-visited` question to `not-answered` on first display. -/

def loadQuestion (s : TestSession) (index total : Nat) : TestSession :=
  if index < total then
    if getStatus s.statuses index = "not-visited" then
      ⟨s.answers, setEntry s.statuses index "not-answered"⟩
    else s
  else s

/-- `VARCApp.selectOption`: saves the chosen option index as the answer, then
promotes the status to `review-answered` when it was `review`, else to
`answered`. -/

def selectOption (s : TestSession) (index optIndex : Nat) : TestSession :=
  let answers := setEntry s.answers index (.num optIndex)
  let currentStatus := getStatus s.statuses index
  if currentStatus = "review" then
    ⟨answers, setEntry s.statuses index "review-answered"⟩
  else
    ⟨answers, setEntry s.statuses index "answered"⟩

/-- `VARCApp.handleTITAInput`: a nonempty trimmed value is saved like an
answer; an empty one clears the answer and demotes the status. -/

def handleTITAInput (s : TestSession) (index : Nat) (value : String) : TestSession :=
  if value.trim ≠ "" then
    let answers := setEntry s.answers index (.str value.trim)
    if getStatus s.statuses index = "review" then
      ⟨answers, setEntry s.statuses index "review-answered"⟩
    else
      ⟨answers, setEntry s.statuses index "answered"⟩
  else
    let answers := removeEntry s.answers index
    if getStatus s.statuses index = "review-answered" then
      ⟨answers, setEntry s.statuses index "review"⟩
    else
      ⟨answers, setEntry s.statuses index "not-answered"⟩

/-- `VARCApp.clearResponse`: rejected outside bounds; clears the answer and
demotes `review-answered` to `review`, anything else to `not-answered`. -/

def clearResponse (s : TestSession) (index total : Nat) : TestSession :=
  if index < total then
    let answers := removeEntry s.answers index
    if getStatus s.statuses index = "review-answered" then
      ⟨answers, setEntry s.statuses index "review"⟩
    else
      ⟨answers, setEntry s.statuses index "not-answered"⟩
  else s

/-- `VARCApp.markForReviewAndNext` (status effect): reads the answer and
marks `review-answered` when one is present (`!== null && !== undefined`),
else `review`.  Navigation to the next question does not touch the maps. -/

def markForReviewAndNext (s : TestSession) (index : Nat) : TestSession :=
  let answer := lookupEntry s.answers index
  if answer.isSome then
    ⟨s.answers, setEntry s.statuses index "review-answered"⟩
  else
    ⟨s.answers, setEntry s.statuses index "review"⟩

/-- One user action on the session, with its question index. -/

inductive UserAction where
  | visit (index : Nat)
  | selectOpt (index optIndex : Nat)
  | tita (index : Nat) (value : String)
  | clearResp (index : Nat)
  | markReview (index : Nat)

/-- Dispatch one action to the corresponding controller operation. -/

def applyAction (total : Nat) (s : TestSession) : UserAction → TestSession
  | .visit index => loadQuestion s index total
  | .selectOpt index optIndex => selectOption s index optIndex
  | .tita index value => handleTITAInput s index value
  | .clearResp index => clearResponse s index total
  | .markReview index => markForReviewAndNext s index

/-- Run a list of user actions left to right. -/

def runActions (total : Nat) (s : TestSession) (acts : List UserAction) : TestSession :=
  acts.foldl (applyAction total) s

/-- The session after `initializeStatuses(n)` on a fresh store: no answers,
every index below `n` mapped to `not-visited`. -/

def initialSession (total : Nat) : TestSession :=
  ⟨[], (List.range total).map fun i => (i, "not-visited")⟩

/-! ### Scoring (`VARCApp.calculateResults`) -/

/-- Per-question marking scheme (`question.marks`). -/

structure QuestionMarks where
  positive : Int
  negative : Int
deriving DecidableEq

/-- A question as the controller sees it.  Rendering-only fields are carried
for the attempt snapshot; scoring uses `correctAnswer` and `marks`. -/

structure Question where
  id : Option Int
  question : Option String
  options : List String
  explanation : Option String
  correctAnswer : JSVal
  marks : Option QuestionMarks
deriving DecidableEq

/-- `question.marks?.positive || 3`: the positive marks, defaulting to 3 when
`marks` is absent (or the stored value is falsy, i.e. zero). -/

def effectivePositive (q : Question) : Int :=
  match q.marks with
  | some m => if m.positive = 0 then 3 else m.positive
  | none => 3

/-- `question.marks?.negative || 1`: the negative marks, defaulting to 1. -/

def effectiveNegative (q : Question) : Int :=
  match q.marks with
  | some m => if m.negative = 0 then 1 else m.negative
  | none => 1

/-- Accumulated counters of the `calculateResults` loop. -/

structure RawTally where
  correct : Nat
  incorrect : Nat
  unattempted : Nat
  runningTotal : Int
  maxMarks : Int
deriving DecidableEq

/-- The `calculateResults` loop body over the questions from index `i` on:
an absent answer counts unattempted; an answer strictly equal (`===`) to
`correctAnswer` adds the positive marks; any other answer subtracts the
negative marks; every question adds its positive marks to `maxMarks`.
(The source iterates left to right with mutable counters; the counters are
sums, so accumulation order is immaterial.) -/

def tallyFrom (answers : List (Nat × JSVal)) : Nat → List Question → RawTally
  | _, [] => ⟨0, 0, 0, 0, 0⟩
  | i, q :: qs =>
      let t := tallyFrom answers (i + 1) qs
      match lookupEntry answers i with
      | none =>
          ⟨t.correct, t.incorrect, t.unattempted + 1, t.runningTotal,
            t.maxMarks + effectivePositive q⟩
      | some a =>
          if a = q.correctAnswer then
            ⟨t.correct + 1, t.incorrect, t.unattempted,
              t.runningTotal + effectivePositive q, t.maxMarks + effectivePositive q⟩
          else
            ⟨t.correct, t.incorrect + 1, t.unattempted,
              t.runningTotal - effectiveNegative q, t.maxMarks + effectivePositive q⟩

/-- Result record returned by `calculateResults`. -/

structure TestResults where
  correct : Nat
  incorrect : Nat
  unattempted : Nat
  totalMarks : Int
  maxMarks : Int
  totalQuestions : Nat
  percentage : Int
deriving DecidableEq

/-- `Math.round(x)` for the exact rational `a / b` with `b > 0`: floor of
`a / b + 1 / 2`, i.e. floor division of `2 * a + b` by `2 * b` (JS computes
this on doubles; the app's operands are small integers). -/

def jsRound (a b : Int) : Int := Int.fdiv (2 * a + b) (2 * b)

/-- `VARCApp.calculateResults`: tallies the questions against the answers,
floors the total at zero — only the grand total, after the loop — and
derives the percentage (0 when `maxMarks` is 0). -/

def calculateResults (questions : List Question) (answers : List (Nat × JSVal)) :
    TestResults :=
  let t := tallyFrom answers 0 questions
  let score := max 0 t.runningTotal
  ⟨t.correct, t.incorrect, t.unattempted, score, t.maxMarks, questions.length,
    if 0 < t.maxMarks then jsRound (100 * score) t.maxMarks else 0⟩

/-- Was the question at this enumerated index answered correctly? -/

def correctAt (answers : List (Nat × JSVal)) (p : Nat × Question) : Bool :=
  match lookupEntry answers p.1 with
  | some a => a = p.2.correctAnswer
  | none => false

/-- Was the question at this enumerated index answered incorrectly? -/

def incorrectAt (answers : List (Nat × JSVal)) (p : Nat × Question) : Bool :=
  match lookupEntry answers p.1 with
  | some a => ¬a = p.2.correctAnswer
  | none => false

/-- Sum of the positive marks of the correctly answered questions. -/

def sumPositivesCorrect (questions : List Question) (answers : List (Nat × JSVal)) : Int :=
  (((questions.enum).filter (correctAt answers)).map fun p => effectivePositive p.2).sum

/-- Sum of the negative marks of the incorrectly answered questions. -/

def sumNegativesIncorrect (questions : List Question) (answers : List (Nat × JSVal)) : Int :=
  (((questions.enum).filter (incorrectAt answers)).map fun p => effectiveNegative p.2).sum

/-- Sum of every question's positive marks (the attainable maximum). -/

def sumAllPositives (questions : List Question) : Int :=
  (questions.map effectivePositive).sum

/-! ### Submission (`VARCApp.submitTest`, `StorageManager.saveRCSetAttempt`) -/

/-- Per-question time-tracking entry (`QUESTION_TIME_TRACKING` values):
a pending start instant, if the question is currently open, and the
accumulated milliseconds. -/

structure TrackEntry where
  startTime : Option Int
  totalTime : Int
deriving DecidableEq

/-- `StorageManager.stopQuestionTimer`: when a truthy start instant is
pending, fold the elapsed time into the total and drop the start. -/

def stopQuestionTimer (tracking : List (Nat × TrackEntry)) (questionIndex : Nat)
    (now : Int) : List (Nat × TrackEntry) :=
  match lookupEntry tracking questionIndex with
  | some tr =>
      match tr.startTime with
      | some startTime =>
          if startTime = 0 then tracking
          else setEntry tracking questionIndex ⟨none, tr.totalTime + (now - startTime)⟩
      | none => tracking
  | none => tracking

/-- `StorageManager.getAllQuestionTimes`: each entry's accumulated total,
plus the still-running span when a truthy start is pending. -/

def getAllQuestionTimes (tracking : List (Nat × TrackEntry)) (now : Int) :
    List (Nat × Int) :=
  tracking.map fun p =>
    (p.1,
      match p.2.startTime with
      | some startTime => if startTime = 0 then p.2.totalTime else p.2.totalTime + (now - startTime)
      | none => p.2.totalTime)

/-- One question's snapshot inside a saved attempt record. -/

structure SnapshotQuestion where
  id : Option Int
  userAnswer : Option JSVal
  correctAnswer : JSVal
  question : Option String
  options : List String
  explanation : Option String
deriving DecidableEq

/-- One attempt record as pushed onto the per-set history. -/

structure AttemptEntry where
  score : Int
  totalMarks : Int
  correct : Nat
  incorrect : Nat
  unattempted : Nat
  totalTime : Int
  questionTimes : List (Nat × Int)
  questions : List SnapshotQuestion
  timestamp : Int
deriving DecidableEq

/-- `StorageManager.getRCSetAttempts`: the history list for one set
(empty when none is stored). -/

def getRCSetAttempts (attempts : List (Nat × List AttemptEntry)) (setId : Nat) :
    List AttemptEntry :=
  (lookupEntry attempts setId).getD []

/-- `StorageManager.saveRCSetAttempt`: unconditionally pushes the record
(timestamped `Date.now()`) onto the set's history list. -/

def saveRCSetAttempt (attempts : List (Nat × List AttemptEntry)) (setId : Nat)
    (attemptData : AttemptEntry) (now : Int) : List (Nat × List AttemptEntry) :=
  let cur := (lookupEntry attempts setId).getD []
  setEntry attempts setId (cur ++ [{ attemptData with timestamp := now }])

/-- The controller state `submitTest` touches.  `Date.now()` is passed
explicitly as `now` to each operation that reads the clock. -/

structure AppState where
  questions : List Question
  session : TestSession
  rcSetId : Nat
  currentQuestionIndex : Nat
  attempts : List (Nat × List AttemptEntry)
  testCompleted : Bool
  isTestSubmitted : Bool
  tracking : List (Nat × TrackEntry)
  attemptStart : Option Int
  totalElapsedTime : Int
deriving DecidableEq

/-- `VARCApp.submitTest`: stops the current question's timer, computes the
results, assembles the attempt record (score, counts, total time from the
attempt start when one is set, per-question times, question snapshots),
pushes it onto the set's history, marks the test completed, and sets
`isTestSubmitted`.  It then navigates to the results page — a browser
effect outside this state.  Note there is no guard: nothing in the method
returns early when `isTestSubmitted` is already true. -/

def submitTest (s : AppState) (now : Int) : AppState :=
  let tracking := stopQuestionTimer s.tracking s.currentQuestionIndex now
  let results := calculateResults s.questions s.session.answers
  let questionTimes := getAllQuestionTimes tracking now
  let totalTime :=
    match s.attemptStart with
    | some t0 => if t0 = 0 then s.totalElapsedTime else Int.fdiv (now - t0) 1000
    | none => s.totalElapsedTime
  let snapshots := s.questions.enum.map fun p =>
    SnapshotQuestion.mk p.2.id (lookupEntry s.session.answers p.1) p.2.correctAnswer
      p.2.question p.2.options p.2.explanation
  let attemptData : AttemptEntry :=
    ⟨results.totalMarks, results.maxMarks, results.correct, results.incorrect,
      results.unattempted, totalTime, questionTimes, snapshots, 0⟩
  { s with
      tracking := tracking
      attempts := saveRCSetAttempt s.attempts s.rcSetId attemptData now
      testCompleted := true
      isTestSubmitted := true }

/-- A one-question session about to be submitted, used to exhibit the effect
of calling `submitTest` twice. -/

def sampleAppState : AppState :=
  { questions := [⟨some 1, some "Q1", ["a", "b"], none, .num 0, none⟩]
    session := ⟨[(0, .num 0)], [(0, "answered")]⟩
    rcSetId := 1
    currentQuestionIndex := 0
    attempts := []
    testCompleted := false
    isTestSubmitted := false
    tracking := [(0, ⟨some 1000, 0⟩)]
    attemptStart := some 500
    totalElapsedTime := 0 }

/-! ### Analytics (`analytics.js`, `Analytics.getTagInsights`) -/

/-- The fields of an attempt's question snapshot that `getTagInsights`
reads. -/

structure AttemptQuestion where
  userAnswer : Option JSVal
  correctAnswer : JSVal
  tags : List String
deriving DecidableEq

/-- An element of the attempt history as the aggregator consumes it. -/

structure AnalyticsAttempt where
  questions : List AttemptQuestion
deriving DecidableEq

/-- Per-tag tally. -/

structure TagStat where
  attempted : Nat
  correct : Nat
deriving DecidableEq

/-- The `hasAnswer` test of `analytics.js`: the answer is neither `null`,
`undefined`, nor the empty string. -/

def questionHasAnswer (q : AttemptQuestion) : Bool :=
  match q.userAnswer with
  | none => false
  | some a => ¬a = JSVal.str ""

/-- Bump one tag's tally (creating it on first sight, preserving first-seen
order as JS object insertion does for string keys). -/

def bumpTag (stats : List (String × TagStat)) (tag : String) (isCorrect : Bool) :
    List (String × TagStat) :=
  match lookupEntry stats tag with
  | some st =>
      setEntry stats tag ⟨st.attempted + 1, if isCorrect then st.correct + 1 else st.correct⟩
  | none => stats ++ [(tag, ⟨1, if isCorrect then 1 else 0⟩)]

/-- The per-question step of the aggregation: tagless or unanswered questions
are skipped; otherwise every tag's tally is bumped with the correctness of
the strict comparison against `correctAnswer`. -/

def collectQuestion (stats : List (String × TagStat)) (q : AttemptQuestion) :
    List (String × TagStat) :=
  if q.tags = [] then stats
  else if questionHasAnswer q then
    let isCorrect :=
      match q.userAnswer with
      | some a => decide (a = q.correctAnswer)
      | none => false
    q.tags.foldl (fun st tag => bumpTag st tag isCorrect) stats
  else stats

/-- The full tag tally over every question of every attempt. -/

def collectTagStats (attempts : List AnalyticsAttempt) : List (String × TagStat) :=
  attempts.foldl (fun st att => att.questions.foldl collectQuestion st) []

/-- One output row of `getTagInsights`. -/

structure TagInsight where
  tag : String
  attempted : Nat
  accuracy : Nat
deriving DecidableEq

/-- `Math.round((correct / attempted) * 100)` as exact rational rounding
(half up), for `attempted > 0`. -/

def roundPercent (correct attempted : Nat) : Nat :=
  (200 * correct + attempted) / (2 * attempted)

/-- The insight row of one tag tally. -/

def insightOfStat (p : String × TagStat) : TagInsight :=
  ⟨p.1, p.2.attempted,
    if 0 < p.2.attempted then roundPercent p.2.correct p.2.attempted else 0⟩

/-- Insert a row into a list sorted ascending by accuracy. -/

def insertByAccuracy (x : TagInsight) : List TagInsight → List TagInsight
  | [] => [x]
  | y :: ys => if x.accuracy ≤ y.accuracy then x :: y :: ys else y :: insertByAccuracy x ys

/-- Sort rows ascending by accuracy (`.sort((a, b) => a.accuracy -
b.accuracy)`). -/

def sortByAccuracy : List TagInsight → List TagInsight
  | [] => []
  | x :: xs => insertByAccuracy x (sortByAccuracy xs)

/-- `Analytics.getTagInsights`: tally tags over all attempts, turn each tally
into a row, keep only rows with at least 5 attempts, and sort ascending by
accuracy.  (The early return on an empty attempts list yields `[]`, which
this pipeline also produces.) -/

def getTagInsights (attempts : List AnalyticsAttempt) : List TagInsight :=
  sortByAccuracy
    (((collectTagStats attempts).map insightOfStat).filter fun e => 5 ≤ e.attempted)

/-- A five-question single-attempt history over one tag, three answered
correctly, used to exercise `getTagInsights`. -/

def sampleAttempts : List AnalyticsAttempt :=
  [⟨[⟨some (.num 1), .num 1, ["inference"]⟩,
     ⟨some (.num 1), .num 1, ["inference"]⟩,
     ⟨some (.num 1), .num 1, ["inference"]⟩,
     ⟨some (.num 2), .num 1, ["inference"]⟩,
     ⟨some (.num 2), .num 1, ["inference"]⟩]⟩]

/-- A store already holding one question status. -/

def presetStore : Store := StorageManager.saveQuestionStatus emptyStore 0 "answered"

/-- The value branch of `getTimerState` on an object's fields: defined only
when both `remainingSeconds` and `savedAt` are numbers. -/

def timerValue (fs : List (String × JSVal)) (now : Int) : Option Int :=
  match lookupEntry fs "remainingSeconds", lookupEntry fs "savedAt" with
  | some (.num remainingSeconds), some (.num savedAt) =>
      some (max 0 (remainingSeconds - Int.fdiv (now - savedAt) 1000))
  | _, _ => none

/-- `getTimerState` reading an already-loaded value: only an object can
yield a remaining time. -/

def timerRead (w : JSVal) (now : Int) : Option Int :=
  match w with
  | .obj fs => timerValue fs now
  | _ => none

theorem strMk_toList (s : String) : String.mk s.toList = s := rfl

theorem digitCh_toNat {d : Nat} (h : d < 10) : (digitCh d).toNat = 48 + d := by
  interval_cases d <;> decide

theorem isDigitCh_digitCh {d : Nat} (h : d < 10) : isDigitCh (digitCh d) = true := by
  interval_cases d <;> decide

/-- A digit character is none of the structural delimiter / leading
characters the parser dispatches on. -/

theorem isDigitCh_excl {c : Char} (h : isDigitCh c = true) :
    c ≠ 'n' ∧ c ≠ 't' ∧ c ≠ 'f' ∧ c ≠ '"' ∧ c ≠ '[' ∧ c ≠ lcurly ∧
      c ≠ '-' ∧ c ≠ ']' ∧ c ≠ rcurly ∧ c ≠ ',' := by
  refine ⟨?_, ?_, ?_, ?_, ?_, ?_, ?_, ?_, ?_, ?_⟩ <;>
    · rintro rfl
      exact absurd h (by decide)

theorem natChars_ne_nil (n : Nat) : natChars n ≠ [] := by
  unfold natChars
  split
  · simp
  · next h =>
      simp [Nat.digits_ne_nil_iff_ne_zero, h]

theorem natChars_digits {n : Nat} : ∀ c ∈ natChars n, isDigitCh c = true := by
  intro c hc
  unfold natChars at hc
  split at hc
  · simp at hc
    subst hc
    decide
  · simp only [List.mem_map, List.mem_reverse] at hc
    obtain ⟨d, hd, rfl⟩ := hc
    exact isDigitCh_digitCh (Nat.digits_lt_base (by norm_num) hd)

theorem digitsVal_rev_map {L : List Nat} (hL : ∀ d ∈ L, d < 10) :
    digitsVal (L.reverse.map digitCh) = Nat.ofDigits 10 L := by
  induction L with
  | nil => simp [digitsVal, Nat.ofDigits]
  | cons d L ih =>
      have hd : d < 10 := hL d (by simp)
      have hL' : ∀ x ∈ L, x < 10 := fun x hx => hL x (by simp [hx])
      simp only [List.reverse_cons, List.map_append, List.map_cons, List.map_nil]
      unfold digitsVal
      rw [List.foldl_append]
      have := ih hL'
      unfold digitsVal at this
      rw [this]
      simp [Nat.ofDigits_cons, digitCh_toNat hd]
      ring

theorem digitsVal_natChars (n : Nat) : digitsVal (natChars n) = n := by
  unfold natChars
  split
  · next h => subst h; decide
  · rw [digitsVal_rev_map (fun d hd => Nat.digits_lt_base (by norm_num) hd)]
    exact Nat.ofDigits_digits 10 n

theorem grabDigits_stop {cs : List Char} (h : digitStart cs = false) :
    grabDigits cs = ([], cs) := by
  cases cs with
  | nil => rfl
  | cons c t =>
      simp only [digitStart] at h
      simp [grabDigits, h]

theorem grabDigits_run {ds : List Char} (hds : ∀ c ∈ ds, isDigitCh c = true)
    {rest : List Char} (hrest : digitStart rest = false) :
    grabDigits (ds ++ rest) = (ds, rest) := by
  induction ds with
  | nil => simpa using grabDigits_stop hrest
  | cons c t ih =>
      have hc : isDigitCh c = true := hds c (by simp)
      have ht := ih (fun x hx => hds x (by simp [hx]))
      simp [grabDigits, hc, ht]

theorem parseNatNum_run {n : Nat} {rest : List Char} (hrest : digitStart rest = false) :
    parseNatNum (natChars n ++ rest) = some (n, rest) := by
  unfold parseNatNum
  rw [grabDigits_run natChars_digits hrest]
  simp [natChars_ne_nil n, digitsVal_natChars n]

theorem parseNumber_run {n : Int} {rest : List Char} (hrest : digitStart rest = false) :
    parseNumber (intChars n ++ rest) = some (.num n, rest) := by
  unfold intChars
  split
  · next hneg =>
      simp only [List.cons_append, parseNumber, if_pos rfl]
      rw [parseNatNum_run hrest]
      simp [Int.ofNat_natAbs_of_nonpos (le_of_lt hneg)]
  · next hpos =>
      obtain ⟨c, t, hct⟩ := List.exists_cons_of_ne_nil (natChars_ne_nil n.natAbs)
      have hc : isDigitCh c = true := natChars_digits c (by rw [hct]; simp)
      rw [hct]
      simp only [List.cons_append, parseNumber]
      rw [if_neg (isDigitCh_excl hc).2.2.2.2.2.2.1]
      rw [← List.cons_append, ← hct, parseNatNum_run hrest]
      simp
      omega

theorem parseStrBody_esc (l : List Char) (rest : List Char) :
    parseStrBody (escChars l ++ '"' :: rest) = some (l, rest) := by
  induction l with
  | nil =>
      show parseStrBody ('"' :: rest) = some ([], rest)
      unfold parseStrBody
      rw [if_pos rfl]
  | cons c t ih =>
      unfold escChars
      split
      · next hc =>
          simp only [List.cons_append, List.append_assoc]
          unfold parseStrBody
          rw [if_neg (by decide), if_pos rfl]
          simp only [List.cons_append] at ih ⊢
          rw [ih]
          rfl
      · next hc =>
          push_neg at hc
          simp only [List.cons_append]
          unfold parseStrBody
          rw [if_neg hc.1, if_neg hc.2]
          rw [ih]
          rfl

mutual

/-- The rendering of a value is at least as long as its node count. -/
theorem jsize_le : ∀ v : JSVal, jsize v ≤ (jsChars v).length
  | .null => by simp [jsize, jsChars]
  | .bool b => by cases b <;> simp [jsize, jsChars, boolChars]
  | .num n => by
      have h := natChars_ne_nil n.natAbs
      simp only [jsize, jsChars, intChars]
      split <;> cases hn : natChars n.natAbs <;> simp_all
  | .str s => by simp [jsize, jsChars, strChars]
  | .arr elems => by
      cases elems with
      | nil => simp [jsize, jsChars, jsizeArr, arrBody]
      | cons v vs =>
          have h1 := jsize_le v
          have h2 := jsizeArr_le vs
          simp only [jsize, jsChars, jsizeArr, arrBody, List.length_cons,
            List.length_append]
          omega
  | .obj fields => by
      cases fields with
      | nil => simp [jsize, jsChars, jsizeObj, objBody]
      | cons f fs =>
          have h1 := jsize_le f.2
          have h2 := jsizeObj_le fs
          have h3 : (fieldChars f).length = (strChars f.1).length + 1 + (jsChars f.2).length := by
            obtain ⟨k, v⟩ := f
            simp [fieldChars]
            omega
          simp only [jsize, jsChars, jsizeObj, objBody, List.length_cons,
            List.length_append]
          simp only [h3, strChars, List.length_cons]
          omega

/-- An array separator rendering is at least as long as the body's node count. -/
theorem jsizeArr_le : ∀ vs : List JSVal, jsizeArr vs ≤ (arrSep vs).length
  | [] => by simp [jsizeArr, arrSep]
  | v :: vs => by
      have h1 := jsize_le v
      have h2 := jsizeArr_le vs
      simp only [jsizeArr, arrSep, List.length_cons, List.length_append]
      omega

/-- An object separator rendering is at least as long as the body's node count. -/
theorem jsizeObj_le : ∀ fs : List (String × JSVal), jsizeObj fs ≤ (objSep fs).length
  | [] => by simp [jsizeObj, objSep]
  | f :: fs => by
      have h1 := jsize_le f.2
      have h2 := jsizeObj_le fs
      have h3 : (fieldChars f).length = (strChars f.1).length + 1 + (jsChars f.2).length := by
        obtain ⟨k, v⟩ := f
        simp [fieldChars]
        omega
      simp only [jsizeObj, objSep, List.length_cons, List.length_append, h3]
      simp only [strChars, List.length_cons]
      omega

end

/-- The rendering of every value is nonempty, and does not start with a
closing bracket (so an array-element parse never mistakes it for the end of
the array). -/

theorem jsChars_cons (v : JSVal) :
    ∃ c t, jsChars v = c :: t ∧ c ≠ ']' := by
  cases v with
  | null => exact ⟨'n', _, rfl, by decide⟩
  | bool b =>
      cases b with
      | false => exact ⟨'f', _, rfl, by decide⟩
      | true => exact ⟨'t', _, rfl, by decide⟩
  | num n =>
      simp only [jsChars, intChars]
      split
      · exact ⟨'-', _, rfl, by decide⟩
      · obtain ⟨c, t, hct⟩ := List.exists_cons_of_ne_nil (natChars_ne_nil n.natAbs)
        have hc : isDigitCh c = true := natChars_digits c (by rw [hct]; simp)
        exact ⟨c, t, hct, (isDigitCh_excl hc).2.2.2.2.2.2.2.1⟩
  | str s => exact ⟨'"', _, rfl, by decide⟩
  | arr elems => exact ⟨'[', _, rfl, by decide⟩
  | obj fields => exact ⟨lcurly, _, rfl, by decide⟩

/-- The parser inverts the serializer, given fuel above the value's node
count and a remainder that does not start with a digit (which could extend a
rendered number).  The three conjuncts cover values, array bodies and object
bodies, by induction on the fuel. -/

theorem parser_inverts_serializer : ∀ fuel : Nat,
    (∀ (v : JSVal) (rest : List Char), jsize v < fuel → digitStart rest = false →
      parseVal fuel (jsChars v ++ rest) = some (v, rest)) ∧
    (∀ (vs : List JSVal) (rest : List Char), jsizeArr vs < fuel →
      parseItems fuel (arrBody vs ++ ']' :: rest) = some (vs, rest)) ∧
    (∀ (fs : List (String × JSVal)) (rest : List Char), jsizeObj fs < fuel →
      parseFields fuel (objBody fs ++ rcurly :: rest) = some (fs, rest)) := by
  intro fuel
  induction fuel with
  | zero =>
      refine ⟨?_, ?_, ?_⟩ <;> · intro a b h
                                exact absurd h (Nat.not_lt_zero _)
  | succ fuel ih =>
      obtain ⟨ihV, ihA, ihO⟩ := ih
      refine ⟨?_, ?_, ?_⟩
      · intro v rest hsz hrest
        cases v with
        | null => simp [jsChars, parseVal]
        | bool b => cases b <;> simp [jsChars, boolChars, parseVal]
        | str s =>
            simp only [jsChars, strChars, List.cons_append, List.append_assoc,
              List.singleton_append]
            simp [parseVal, parseStrBody_esc, strMk_toList]
        | num n =>
            by_cases hneg : n < 0
            · have hrun := @parseNumber_run n rest hrest
              simp only [jsChars, intChars, if_pos hneg, List.cons_append] at hrun ⊢
              simp [parseVal]
              simpa using hrun
            · have hrun := @parseNumber_run n rest hrest
              simp only [jsChars, intChars, if_neg hneg] at hrun ⊢
              obtain ⟨c, t, hct⟩ := List.exists_cons_of_ne_nil (natChars_ne_nil n.natAbs)
              have hc : isDigitCh c = true := natChars_digits c (by rw [hct]; simp)
              obtain ⟨h1, h2, h3, h4, h5, h6, h7, _, _, _⟩ := isDigitCh_excl hc
              rw [hct] at hrun ⊢
              simp only [List.cons_append] at hrun ⊢
              simp [parseVal, h1, h2, h3, h4, h5, h6, hc, hrun]
        | arr elems =>
            have hA := ihA elems rest (by simp [jsize] at hsz; omega)
            simp only [jsChars, List.cons_append, List.append_assoc,
              List.singleton_append]
            simp [parseVal, hA]
        | obj fields =>
            have hO := ihO fields rest (by simp [jsize] at hsz; omega)
            simp only [jsChars, List.cons_append, List.append_assoc,
              List.singleton_append]
            simp [parseVal, hO]
            rw [if_neg (by decide), if_neg (by decide), if_neg (by decide),
              if_neg (by decide), if_neg (by decide)]
      · intro vs rest hsz
        cases vs with
        | nil => simp [arrBody, parseItems]
        | cons v vs =>
            obtain ⟨c, t, hct, hcr⟩ := jsChars_cons v
            have hv : jsize v < fuel := by simp [jsizeArr] at hsz; omega
            have hrest2 : digitStart (arrSep vs ++ ']' :: rest) = false := by
              cases vs <;> simp [arrSep, digitStart, isDigitCh]
            have hV := ihV v (arrSep vs ++ ']' :: rest) hv hrest2
            rw [hct] at hV
            simp only [arrBody, List.append_assoc]
            rw [hct]
            simp only [List.cons_append] at hV ⊢
            rw [parseItems.eq_def]
            simp only [if_neg hcr, hV]
            cases vs with
            | nil => simp [arrSep]
            | cons w ws =>
                have hA := ihA (w :: ws) rest (by simp [jsizeArr] at hsz ⊢; omega)
                simp only [arrBody, List.append_assoc] at hA
                simp [arrSep, hA]
      · intro fs rest hsz
        cases fs with
        | nil => simp [objBody, parseFields]
        | cons f fs =>
            obtain ⟨k, v⟩ := f
            have hv : jsize v < fuel := by simp [jsizeObj] at hsz; omega
            have hrest2 : digitStart (objSep fs ++ rcurly :: rest) = false := by
              cases fs <;> simp [objSep, digitStart, isDigitCh, rcurly]
            have hV := ihV v (objSep fs ++ rcurly :: rest) hv hrest2
            simp only [objBody, fieldChars, strChars, List.cons_append,
              List.append_assoc, List.singleton_append]
            rw [parseFields.eq_def]
            simp only [if_neg (by decide : ¬('"' : Char) = rcurly), if_pos rfl]
            rw [parseStrBody_esc]
            simp only [strMk_toList]
            cases fs with
            | nil =>
                simp only [objSep, List.nil_append] at hV
                simp only [objSep, List.nil_append, hV]
                simp
                intro h
                exact absurd h (by decide)
            | cons g gs =>
                have hO := ihO (g :: gs) rest (by simp [jsizeObj] at hsz ⊢; omega)
                simp only [objBody, List.append_assoc] at hO
                simp only [objSep, List.cons_append, List.append_assoc,
                  List.nil_append] at hV ⊢
                simp [hV, hO]

/-- Serialized text is never empty (so it is always truthy as a JS string). -/

theorem jsonStringify_ne_empty (v : JSVal) : jsonStringify v ≠ "" := by
  obtain ⟨c, t, hct, _⟩ := jsChars_cons v
  unfold jsonStringify
  rw [hct]
  intro h
  have hdata : c :: t = ([] : List Char) := congrArg String.data h
  cases hdata

/-- Full round trip: parsing serialized text recovers the value exactly. -/

theorem jsonParse_jsonStringify (v : JSVal) : jsonParse (jsonStringify v) = some v := by
  have h := (parser_inverts_serializer ((jsChars v).length + 1)).1 v []
    (Nat.lt_succ_of_le (jsize_le v)) rfl
  rw [List.append_nil] at h
  unfold jsonParse
  have e1 : (jsonStringify v).toList = jsChars v := rfl
  have e2 : (jsonStringify v).length = (jsChars v).length := rfl
  rw [e1, e2, h]

/-- Loading a key just saved returns exactly the saved value: serialized text
is nonempty (truthy) and parses back to the value. -/

theorem load_save (st : Store) (key : String) (data defaultValue : JSVal) :
    StorageManager.load (StorageManager.save st key data) key defaultValue = data := by
  unfold StorageManager.load StorageManager.save
  simp [jsonStringify_ne_empty data, jsonParse_jsonStringify data]

/-- Saving one key leaves every other key's stored text unchanged. -/

theorem save_other (st : Store) (key k : String) (data : JSVal) (h : k ≠ key) :
    StorageManager.save st key data k = st k := by
  unfold StorageManager.save
  simp [h]

theorem lookupEntry_setEntry_self {κ α : Type} [DecidableEq κ]
    (es : List (κ × α)) (k : κ) (v : α) :
    lookupEntry (setEntry es k v) k = some v := by
  induction es with
  | nil => simp [setEntry, lookupEntry]
  | cons e es ih =>
      obtain ⟨k2, v2⟩ := e
      by_cases h : k2 = k
      · simp [setEntry, lookupEntry, h]
      · simp [setEntry, lookupEntry, h, ih]

theorem lookupEntry_setEntry_other {κ α : Type} [DecidableEq κ]
    (es : List (κ × α)) (k k2 : κ) (v : α) (h : k2 ≠ k) :
    lookupEntry (setEntry es k v) k2 = lookupEntry es k2 := by
  induction es with
  | nil =>
      simp only [setEntry, lookupEntry]
      rw [if_neg (Ne.symm h)]
  | cons e es ih =>
      obtain ⟨k3, v3⟩ := e
      by_cases h3 : k3 = k
      · subst h3
        simp only [setEntry, if_pos rfl, lookupEntry]
        rw [if_neg (Ne.symm h), if_neg (Ne.symm h)]
      · simp only [setEntry, if_neg h3, lookupEntry]
        by_cases h2 : k3 = k2
        · rw [if_pos h2, if_pos h2]
        · rw [if_neg h2, if_neg h2, ih]

theorem lookupEntry_removeEntry_self {κ α : Type} [DecidableEq κ]
    (es : List (κ × α)) (k : κ) :
    lookupEntry (removeEntry es k) k = none := by
  induction es with
  | nil => simp [removeEntry, lookupEntry]
  | cons e es ih =>
      obtain ⟨k2, v2⟩ := e
      by_cases h : k2 = k
      · simpa [removeEntry, List.filter, h] using ih
      · simpa [removeEntry, List.filter, lookupEntry, h] using ih

/-- Every entry of `setEntry es k v` either carries the written value or was
already present. -/

theorem mem_setEntry {κ α : Type} [DecidableEq κ]
    {es : List (κ × α)} {k : κ} {v : α} {e : κ × α} (h : e ∈ setEntry es k v) :
    e.2 = v ∨ e ∈ es := by
  induction es with
  | nil =>
      simp [setEntry] at h
      simp [h]
  | cons e2 es ih =>
      obtain ⟨k2, v2⟩ := e2
      by_cases h2 : k2 = k
      · simp only [setEntry, if_pos h2] at h
        rcases List.mem_cons.mp h with h3 | h3
        · simp [h3]
        · exact Or.inr (List.mem_cons.mpr (Or.inr h3))
      · simp only [setEntry, if_neg h2] at h
        rcases List.mem_cons.mp h with h3 | h3
        · exact Or.inr (List.mem_cons.mpr (Or.inl h3))
        · rcases ih h3 with h4 | h4
          · exact Or.inl h4
          · exact Or.inr (List.mem_cons.mpr (Or.inr h4))

/-- If every value stored in a list is `c`, any successful lookup returns `c`. -/

theorem lookupEntry_const {κ α : Type} [DecidableEq κ]
    {es : List (κ × α)} {c : α} (hall : ∀ e ∈ es, e.2 = c) {k : κ}
    (hk : k ∈ es.map Prod.fst) : lookupEntry es k = some c := by
  induction es with
  | nil => simp at hk
  | cons e es ih =>
      obtain ⟨k2, v2⟩ := e
      by_cases h : k2 = k
      · have : v2 = c := hall (k2, v2) (by simp)
        simp [lookupEntry, h, this]
      · simp only [List.map_cons, List.mem_cons] at hk
        rcases hk with hk | hk
        · exact absurd hk.symm h
        · simp only [lookupEntry, if_neg h]
          exact ih (fun e he => hall e (by simp [he])) hk

/-! ### Claims about the persistence store -/

/-- An object-shaped value is literally some field list. -/

theorem isObj_elim {v : JSVal} (h : v.isObj) : ∃ fields, v = .obj fields := by
  cases v <;> first
    | exact ⟨_, rfl⟩
    | exact absurd h (by simp [JSVal.isObj])

/-- C7: for every key and every JSON-serializable value — including `0`,
`false`, the empty string, and nested maps with numeric-looking string keys —
`save(key, v)` followed by `load(key)` returns a value deep-equal to `v`. -/

theorem c7_save_load_roundtrip (st : Store) (key : String) (value defaultValue : JSVal) :
    StorageManager.load (StorageManager.save st key value) key defaultValue = value :=
  load_save st key value defaultValue

/-- C8: `load(key, default)` returns the caller-supplied default both when
the key is absent and when the stored text fails JSON deserialization; being
a total function it never throws. -/

theorem c8_load_corrupt_defaults (st : Store) (key : String) (defaultValue : JSVal)
    (h : st key = none ∨ ∃ data, st key = some data ∧ jsonParse data = none) :
    StorageManager.load st key defaultValue = defaultValue := by
  unfold StorageManager.load
  rcases h with h | ⟨data, hdata, hparse⟩
  · rw [h]
  · rw [hdata]
    show (if data = "" then defaultValue
      else
        match jsonParse data with
        | some v => v
        | none => defaultValue) = defaultValue
    by_cases he : data = ""
    · rw [if_pos he]
    · rw [if_neg he, hparse]

/-- C8 witness: an unparsable stored text (a lone opening bracket) and an
absent key both fall back to the default. -/

theorem c8_witness :
    corruptStore KEY_USER_ANSWERS = some "\x7b" ∧ jsonParse "\x7b" = none ∧
      StorageManager.load corruptStore KEY_USER_ANSWERS (.num 7) = .num 7 ∧
      StorageManager.load emptyStore KEY_USER_ANSWERS .null = .null :=
  ⟨rfl, by decide,
    c8_load_corrupt_defaults corruptStore KEY_USER_ANSWERS (.num 7)
      (Or.inr ⟨"\x7b", rfl, by decide⟩),
    c8_load_corrupt_defaults emptyStore KEY_USER_ANSWERS .null (Or.inl rfl)⟩

/-- C6: when the stored answers value is an object (as every state produced
by the app satisfies), `saveAnswer(i, 0)` followed by `getAnswer(i)` returns
`0` — not `null` — and after `clearAnswer(i)` the read returns `null`:
the answer `0` round-trips through persistence as distinct from the
unanswered state. -/

theorem c6_zero_answer_roundtrip (st : Store) (i : Nat)
    (h : (StorageManager.load st KEY_USER_ANSWERS (.obj [])).isObj) :
    StorageManager.getAnswer (StorageManager.saveAnswer st i (.num 0)) i = some (.num 0) ∧
      StorageManager.getAnswer (StorageManager.clearAnswer st i) i = none := by
  obtain ⟨fields, hA⟩ := isObj_elim h
  constructor
  · simp only [StorageManager.getAnswer, StorageManager.saveAnswer, hA, objSet,
      load_save, objGet, lookupEntry_setEntry_self]
  · simp only [StorageManager.getAnswer, StorageManager.clearAnswer, hA, objDelete,
      load_save, objGet, lookupEntry_removeEntry_self]

/-- C6 witness: on a fresh store (whose loaded answers default to the empty
object) the saved `0` reads back as `0` and a cleared answer reads as null. -/

theorem c6_witness :
    (StorageManager.load emptyStore KEY_USER_ANSWERS (.obj [])).isObj ∧
      StorageManager.getAnswer (StorageManager.saveAnswer emptyStore 7 (.num 0)) 7 =
        some (.num 0) ∧
      StorageManager.getAnswer (StorageManager.clearAnswer emptyStore 7) 7 = none := by
  have h : (StorageManager.load emptyStore KEY_USER_ANSWERS (.obj [])).isObj := trivial
  exact ⟨h, (c6_zero_answer_roundtrip emptyStore 7 h).1,
    (c6_zero_answer_roundtrip emptyStore 7 h).2⟩

/-- Every value in the fresh statuses map is the `not-visited` string. -/

theorem freshStatuses_vals {n : Nat} :
    ∀ e ∈ StorageManager.freshStatuses n, e.2 = JSVal.str "not-visited" := by
  intro e he
  simp only [StorageManager.freshStatuses, List.mem_map] at he
  obtain ⟨i, _, rfl⟩ := he
  rfl

/-- Every index below `n` has its key in the fresh statuses map. -/

theorem freshStatuses_keys {n i : Nat} (hi : i < n) :
    toString i ∈ (StorageManager.freshStatuses n).map Prod.fst := by
  simp only [StorageManager.freshStatuses, List.map_map, List.mem_map]
  exact ⟨i, List.mem_range.mpr hi, rfl⟩

/-- C10: `initializeStatuses(n)` writes the all-`not-visited` map over the
`n` indices only when no statuses are stored (the loaded object has no
keys); when any statuses already exist it returns the store completely
unchanged, so re-running initialization never wipes an in-progress
session. -/

theorem c10_init_preserves_existing (st : Store) (n : Nat) :
    ((objKeys (StorageManager.load st KEY_QUESTION_STATUS (.obj []))).length ≠ 0 →
      StorageManager.initStatuses st n = st) ∧
    ((objKeys (StorageManager.load st KEY_QUESTION_STATUS (.obj []))).length = 0 →
      ∀ i, i < n →
        StorageManager.getQuestionStatus (StorageManager.initStatuses st n) i =
          .str "not-visited") := by
  constructor
  · intro h
    unfold StorageManager.initStatuses
    rw [if_neg h]
  · intro h i hi
    unfold StorageManager.initStatuses
    rw [if_pos h]
    unfold StorageManager.getQuestionStatus
    rw [load_save]
    show (match objGet (.obj (StorageManager.freshStatuses n)) (toString i) with
      | some v => if jsTruthy v then v else .str "not-visited"
      | none => .str "not-visited") = .str "not-visited"
    rw [show objGet (.obj (StorageManager.freshStatuses n)) (toString i) =
        lookupEntry (StorageManager.freshStatuses n) (toString i) from rfl]
    rw [lookupEntry_const freshStatuses_vals (freshStatuses_keys hi)]
    rfl

/-- C10 witness: initialization is a no-op on a store with an existing
status, and fills index 2 of a fresh 3-question store with `not-visited`. -/

theorem c10_witness :
    StorageManager.initStatuses presetStore 4 = presetStore ∧
      StorageManager.getQuestionStatus (StorageManager.initStatuses emptyStore 3) 2 =
        .str "not-visited" :=
  ⟨(c10_init_preserves_existing presetStore 4).1 (by decide),
    (c10_init_preserves_existing emptyStore 3).2 (by decide) 2 (by decide)⟩

/-- Case-free description of `getTimerState` via `timerRead`: truthy
non-objects have no numeric fields and falsy values short-circuit to null —
both give `none`. -/

theorem getTimerState_eq (st : Store) (now : Int) :
    StorageManager.getTimerState st now =
      timerRead (StorageManager.load st KEY_TIMER_STATE .null) now := by
  unfold StorageManager.getTimerState
  cases h : StorageManager.load st KEY_TIMER_STATE .null with
  | null => simp [jsTruthy, timerRead]
  | bool b => cases b <;> simp [jsTruthy, objGet, timerRead, timerValue]
  | num m => simp [jsTruthy, objGet, timerRead, timerValue]
  | str s => simp [jsTruthy, objGet, timerRead, timerValue]
  | arr es => simp [jsTruthy, objGet, timerRead, timerValue]
  | obj fs => simp [jsTruthy, objGet, timerRead, timerValue]

/-- C5: reading a saved timer state `(remainingSeconds, savedAt)` at any
`now >= savedAt` returns `max(0, remainingSeconds - floor((now - savedAt) /
1000))`; reading with no stored timer state returns null; and two reads
without an intervening save return non-increasing values as the clock
advances. -/

theorem c5_timer_state (st : Store) (now : Int) :
    (∀ remainingSeconds savedAt : Int, savedAt ≤ now →
      StorageManager.getTimerState (StorageManager.saveTimerState st remainingSeconds savedAt) now =
        some (max 0 (remainingSeconds - Int.fdiv (now - savedAt) 1000))) ∧
    (st KEY_TIMER_STATE = none → StorageManager.getTimerState st now = none) ∧
    (∀ now2 v1, now ≤ now2 → StorageManager.getTimerState st now = some v1 →
      ∃ v2, StorageManager.getTimerState st now2 = some v2 ∧ v2 ≤ v1) := by
  refine ⟨?_, ?_, ?_⟩
  · intro remainingSeconds savedAt _
    rw [getTimerState_eq]
    unfold StorageManager.saveTimerState
    rw [load_save]
    rfl
  · intro h
    have hl : StorageManager.load st KEY_TIMER_STATE .null = .null := by
      unfold StorageManager.load
      rw [h]
    rw [getTimerState_eq, hl]
    rfl
  · intro now2 v1 h12 h1
    rw [getTimerState_eq] at h1 ⊢
    generalize StorageManager.load st KEY_TIMER_STATE .null = w at h1 ⊢
    cases w <;> try exact Option.noConfusion h1
    next fs =>
    have h1a : timerValue fs now = some v1 := h1
    show ∃ v2, timerValue fs now2 = some v2 ∧ v2 ≤ v1
    clear h1
    unfold timerValue at h1a ⊢
    split at h1a
    · rename_i rem savedAt hr ha
      refine ⟨max 0 (rem - Int.fdiv (now2 - savedAt) 1000), rfl, ?_⟩
      simp only [Option.some.injEq] at h1a
      rw [← h1a]
      have hdiv : Int.fdiv (now - savedAt) 1000 ≤ Int.fdiv (now2 - savedAt) 1000 := by
        rw [Int.fdiv_eq_ediv _ (by norm_num), Int.fdiv_eq_ediv _ (by norm_num)]
        exact Int.ediv_le_ediv (by norm_num) (by omega)
      exact max_le_max le_rfl (by omega)
    · exact Option.noConfusion h1a

/-- C5 witness: a two-minute timer saved at 1000ms read at 3500ms gives 117…
118 seconds, an empty store reads null, and a later read gives no more. -/

theorem c5_witness :
    StorageManager.getTimerState (StorageManager.saveTimerState emptyStore 120 1000) 3500 =
      some 118 ∧
      StorageManager.getTimerState emptyStore 3500 = none ∧
      ∃ v2, StorageManager.getTimerState (StorageManager.saveTimerState emptyStore 120 1000) 4000 =
        some v2 ∧ v2 ≤ 118 := by
  have h1 := (c5_timer_state emptyStore 3500).1 120 1000 (by decide)
  have h1a : StorageManager.getTimerState
      (StorageManager.saveTimerState emptyStore 120 1000) 3500 = some 118 := by
    rw [h1]
    decide
  refine ⟨h1a, (c5_timer_state emptyStore 3500).2.1 rfl, ?_⟩
  exact (c5_timer_state (StorageManager.saveTimerState emptyStore 120 1000) 3500).2.2
    4000 118 (by decide) h1a

/-! ### Claims about scoring -/

/-- Closed form of the scoring loop's counters: the counts are the numbers of
correctly / incorrectly / un-answered enumerated questions, the running
total is the correct questions' positive marks minus the incorrect ones'
negative marks, and the maximum is the sum of all positive marks. -/

theorem tallyFrom_spec (answers : List (Nat × JSVal)) :
    ∀ (qs : List Question) (i : Nat),
      (tallyFrom answers i qs).correct + (tallyFrom answers i qs).incorrect +
          (tallyFrom answers i qs).unattempted = qs.length ∧
      (tallyFrom answers i qs).maxMarks = (qs.map effectivePositive).sum ∧
      (tallyFrom answers i qs).runningTotal =
        (((List.enumFrom i qs).filter (correctAt answers)).map fun p =>
            effectivePositive p.2).sum -
          (((List.enumFrom i qs).filter (incorrectAt answers)).map fun p =>
            effectiveNegative p.2).sum
  | [], i => by simp [tallyFrom]
  | q :: qs, i => by
      obtain ⟨hc, hm, hr⟩ := tallyFrom_spec answers qs (i + 1)
      unfold tallyFrom
      cases hA : lookupEntry answers i with
      | none =>
          have hca : correctAt answers (i, q) = false := by simp [correctAt, hA]
          have hia : incorrectAt answers (i, q) = false := by simp [incorrectAt, hA]
          simp only [List.enumFrom_cons, List.filter_cons, hca, hia,
            Bool.false_eq_true, if_false, List.map_cons, List.length_cons, List.sum_cons]
          exact ⟨by omega, by omega, by omega⟩
      | some a =>
          by_cases hEq : a = q.correctAnswer
          · have hca : correctAt answers (i, q) = true := by simp [correctAt, hA, hEq]
            have hia : incorrectAt answers (i, q) = false := by simp [incorrectAt, hA, hEq]
            simp only [List.enumFrom_cons, List.filter_cons, hca, hia,
              Bool.false_eq_true, if_false, if_true, List.map_cons, List.length_cons,
              List.sum_cons, hEq]
            exact ⟨by omega, by omega, by omega⟩
          · have hca : correctAt answers (i, q) = false := by simp [correctAt, hA, hEq]
            have hia : incorrectAt answers (i, q) = true := by simp [incorrectAt, hA, hEq]
            simp only [List.enumFrom_cons, List.filter_cons, hca, hia,
              Bool.false_eq_true, if_false, if_true, List.map_cons, List.length_cons,
              List.sum_cons, if_neg hEq]
            exact ⟨by omega, by omega, by omega⟩

/-- C1: for every question list and answers map, the result's three counts
partition the questions, `maxMarks` is the sum of every question's positive
marks, and the total score is the raw signed sum — positive marks over the
correct answers minus negative marks over the incorrect ones — floored at
zero only as a grand total. -/

theorem c1_calculate_results (questions : List Question) (answers : List (Nat × JSVal)) :
    (calculateResults questions answers).correct +
        (calculateResults questions answers).incorrect +
        (calculateResults questions answers).unattempted = questions.length ∧
      (calculateResults questions answers).maxMarks = sumAllPositives questions ∧
      (calculateResults questions answers).totalMarks =
        max 0 (sumPositivesCorrect questions answers -
          sumNegativesIncorrect questions answers) := by
  obtain ⟨hc, hm, hr⟩ := tallyFrom_spec answers questions 0
  unfold calculateResults sumAllPositives sumPositivesCorrect sumNegativesIncorrect
  refine ⟨hc, hm, ?_⟩
  show max 0 (tallyFrom answers 0 questions).runningTotal = _
  rw [hr]
  rfl

/-! ### Claims about the status state machine -/

/-- A successful lookup returns the value of an entry of the list. -/

theorem lookupEntry_mem {κ α : Type} [DecidableEq κ] {es : List (κ × α)} {k : κ}
    {v : α} (h : lookupEntry es k = some v) : (k, v) ∈ es := by
  induction es with
  | nil => exact absurd h (by simp [lookupEntry])
  | cons e es ih =>
      obtain ⟨k2, v2⟩ := e
      by_cases hk : k2 = k
      · subst hk
        unfold lookupEntry at h
        rw [if_pos rfl] at h
        injection h with h2
        subst h2
        exact List.mem_cons_self _ _
      · unfold lookupEntry at h
        rw [if_neg hk] at h
        exact List.mem_cons_of_mem _ (ih h)

/-- Reading any index of a status map whose entries are all valid yields a
valid status (the fallback `not-visited` is itself valid). -/

theorem getStatus_valid {sts : List (Nat × String)} (h : ∀ p ∈ sts, validStatus p.2)
    (i : Nat) : validStatus (getStatus sts i) := by
  unfold getStatus
  cases hl : lookupEntry sts i with
  | none => exact Or.inl rfl
  | some s =>
      show validStatus (if s = "" then "not-visited" else s)
      by_cases hs : s = ""
      · rw [if_pos hs]
        exact Or.inl rfl
      · rw [if_neg hs]
        exact h (i, s) (lookupEntry_mem hl)

/-- Reading through one status write: the written index reads the written
value (when it is not the falsy empty string), other indices are unchanged. -/

theorem getStatus_setEntry (sts : List (Nat × String)) (idx : Nat) (v : String)
    (hv : v ≠ "") (i : Nat) :
    getStatus (setEntry sts idx v) i = if i = idx then v else getStatus sts i := by
  by_cases h : i = idx
  · subst h
    rw [if_pos rfl]
    unfold getStatus
    rw [lookupEntry_setEntry_self]
    show (if v = "" then "not-visited" else v) = v
    rw [if_neg hv]
  · rw [if_neg h]
    unfold getStatus
    rw [lookupEntry_setEntry_other _ _ _ _ h]

/-- The statuses map after `loadQuestion`, as one conditional. -/

theorem loadQuestion_statuses (s : TestSession) (index total : Nat) :
    (loadQuestion s index total).statuses =
      if index < total ∧ getStatus s.statuses index = "not-visited" then
        setEntry s.statuses index "not-answered"
      else s.statuses := by
  unfold loadQuestion
  by_cases h1 : index < total
  · by_cases h2 : getStatus s.statuses index = "not-visited" <;> simp [h1, h2]
  · simp [h1]

/-- The statuses map after `selectOption`, as one conditional. -/

theorem selectOption_statuses (s : TestSession) (index optIndex : Nat) :
    (selectOption s index optIndex).statuses =
      if getStatus s.statuses index = "review" then
        setEntry s.statuses index "review-answered"
      else setEntry s.statuses index "answered" := by
  unfold selectOption
  by_cases h : getStatus s.statuses index = "review" <;> simp [h]

/-- The statuses map after `handleTITAInput`, as nested conditionals. -/

theorem handleTITAInput_statuses (s : TestSession) (index : Nat) (value : String) :
    (handleTITAInput s index value).statuses =
      if value.trim ≠ "" then
        if getStatus s.statuses index = "review" then
          setEntry s.statuses index "review-answered"
        else setEntry s.statuses index "answered"
      else
        if getStatus s.statuses index = "review-answered" then
          setEntry s.statuses index "review"
        else setEntry s.statuses index "not-answered" := by
  unfold handleTITAInput
  by_cases h1 : value.trim = ""
  · by_cases h2 : getStatus s.statuses index = "review-answered" <;> simp [h1, h2]
  · by_cases h2 : getStatus s.statuses index = "review" <;> simp [h1, h2]

/-- The statuses map after `clearResponse`, as nested conditionals. -/

theorem clearResponse_statuses (s : TestSession) (index total : Nat) :
    (clearResponse s index total).statuses =
      if index < total then
        if getStatus s.statuses index = "review-answered" then
          setEntry s.statuses index "review"
        else setEntry s.statuses index "not-answered"
      else s.statuses := by
  unfold clearResponse
  by_cases h1 : index < total
  · by_cases h2 : getStatus s.statuses index = "review-answered" <;> simp [h1, h2]
  · simp [h1]

/-- The statuses map after `markForReviewAndNext`, as one conditional. -/

theorem markForReviewAndNext_statuses (s : TestSession) (index : Nat) :
    (markForReviewAndNext s index).statuses =
      if (lookupEntry s.answers index).isSome then
        setEntry s.statuses index "review-answered"
      else setEntry s.statuses index "review" := by
  unfold markForReviewAndNext
  by_cases h : (lookupEntry s.answers index).isSome <;> simp [h]

/-- Every controller operation either leaves the statuses map unchanged or
writes exactly one valid, non-empty, non-`not-visited` status. -/

theorem applyAction_statuses_shape (total : Nat) (s : TestSession) (a : UserAction) :
    (applyAction total s a).statuses = s.statuses ∨
      ∃ idx v, validStatus v ∧ v ≠ "" ∧ v ≠ "not-visited" ∧
        (applyAction total s a).statuses = setEntry s.statuses idx v := by
  cases a with
  | visit index =>
      simp only [applyAction]
      rw [loadQuestion_statuses]
      split_ifs
      · exact Or.inr ⟨index, "not-answered", by decide, by decide, by decide, rfl⟩
      · exact Or.inl rfl
  | selectOpt index optIndex =>
      simp only [applyAction]
      rw [selectOption_statuses]
      split_ifs
      · exact Or.inr ⟨index, "review-answered", by decide, by decide, by decide, rfl⟩
      · exact Or.inr ⟨index, "answered", by decide, by decide, by decide, rfl⟩
  | tita index value =>
      simp only [applyAction]
      rw [handleTITAInput_statuses]
      split_ifs
      · exact Or.inr ⟨index, "review-answered", by decide, by decide, by decide, rfl⟩
      · exact Or.inr ⟨index, "answered", by decide, by decide, by decide, rfl⟩
      · exact Or.inr ⟨index, "review", by decide, by decide, by decide, rfl⟩
      · exact Or.inr ⟨index, "not-answered", by decide, by decide, by decide, rfl⟩
  | clearResp index =>
      simp only [applyAction]
      rw [clearResponse_statuses]
      split_ifs
      · exact Or.inr ⟨index, "review", by decide, by decide, by decide, rfl⟩
      · exact Or.inr ⟨index, "not-answered", by decide, by decide, by decide, rfl⟩
      · exact Or.inl rfl
  | markReview index =>
      simp only [applyAction]
      rw [markForReviewAndNext_statuses]
      split_ifs
      · exact Or.inr ⟨index, "review-answered", by decide, by decide, by decide, rfl⟩
      · exact Or.inr ⟨index, "review", by decide, by decide, by decide, rfl⟩

/-- Every controller operation keeps every stored status valid. -/

theorem applyAction_keeps_valid (total : Nat) (s : TestSession) (a : UserAction)
    (h : ∀ p ∈ s.statuses, validStatus p.2) :
    ∀ p ∈ (applyAction total s a).statuses, validStatus p.2 := by
  rcases applyAction_statuses_shape total s a with heq | ⟨idx, v, hval, _, _, heq⟩ <;>
    rw [heq]
  · exact h
  · intro p hp
    rcases mem_setEntry hp with h2 | h2
    · rw [h2]
      exact hval
    · exact h p h2

/-- Running any action list from a valid-status session keeps all statuses
valid. -/

theorem runActions_keeps_valid (total : Nat) :
    ∀ (acts : List UserAction) (s : TestSession),
      (∀ p ∈ s.statuses, validStatus p.2) →
      ∀ p ∈ (runActions total s acts).statuses, validStatus p.2
  | [], _, h => h
  | a :: acts, s, h =>
      runActions_keeps_valid total acts (applyAction total s a)
        (applyAction_keeps_valid total s a h)

/-- C2: from the freshly initialized session (every status `not-visited`) no
sequence of user actions — visiting, selecting an option, typing or clearing
a TITA answer, clearing a response, marking for review — ever stores a
status outside the five defined values; and no single operation, from any
session state, ever takes a question's status back to `not-visited`. -/

theorem c2_statuses_closed (total : Nat) (acts : List UserAction) :
    (∀ i, validStatus (getStatus (runActions total (initialSession total) acts).statuses i)) ∧
    (∀ (s : TestSession) (a : UserAction) (i : Nat),
      getStatus s.statuses i ≠ "not-visited" →
      getStatus (applyAction total s a).statuses i ≠ "not-visited") := by
  constructor
  · intro i
    refine getStatus_valid (runActions_keeps_valid total acts (initialSession total) ?_) i
    intro p hp
    simp only [initialSession, List.mem_map] at hp
    obtain ⟨j, _, rfl⟩ := hp
    exact Or.inl rfl
  · intro s a i hne
    rcases applyAction_statuses_shape total s a with heq | ⟨idx, v, _, hv1, hv2, heq⟩ <;>
      rw [heq]
    · exact hne
    · rw [getStatus_setEntry s.statuses idx v hv1 i]
      by_cases h : i = idx
      · rw [if_pos h]
        exact hv2
      · rw [if_neg h]
        exact hne

/-- C2 witness: a concrete two-question run stays within the five statuses,
and one concrete step away from an `answered` status does not return to
`not-visited`. -/

theorem c2_witness :
    validStatus (getStatus (runActions 2 (initialSession 2)
        [.visit 0, .selectOpt 0 1, .markReview 0, .clearResp 0]).statuses 0) ∧
      getStatus ((applyAction 2 ⟨[], [(0, "answered")]⟩ (.markReview 0)).statuses) 0 ≠
        "not-visited" :=
  ⟨(c2_statuses_closed 2 [.visit 0, .selectOpt 0 1, .markReview 0, .clearResp 0]).1 0,
    (c2_statuses_closed 2 []).2 ⟨[], [(0, "answered")]⟩ (.markReview 0) 0 (by decide)⟩

/-! ### Claims about mark-for-review -/

/-- Writing the same key twice keeps only the last write. -/

theorem setEntry_setEntry {κ α : Type} [DecidableEq κ]
    (es : List (κ × α)) (k : κ) (v1 v2 : α) :
    setEntry (setEntry es k v1) k v2 = setEntry es k v2 := by
  induction es with
  | nil => simp [setEntry]
  | cons e es ih =>
      obtain ⟨k2, v3⟩ := e
      by_cases h : k2 = k
      · simp [setEntry, h]
      · simp [setEntry, h, ih]

/-- C3 counterexample: on a question whose status is `review` (with no
answer present), mark-for-review leaves the status `review` — it does not
toggle back to `not-answered` as the claim states. -/

theorem c3_counterexample :
    getStatus (markForReviewAndNext ⟨[], [(0, "review")]⟩ 0).statuses 0 = "review" ∧
      getStatus (markForReviewAndNext ⟨[], [(0, "review")]⟩ 0).statuses 0 ≠
        "not-answered" := by
  constructor
  · decide
  · decide

/-- C3 (amended): mark-for-review is not a toggle but an idempotent
absorbing write: it sets the status to `review-answered` when an answer is
present and to `review` otherwise, regardless of the prior status (so
`not-answered` does go to `review` and `answered` to `review-answered`, but
`review` and `review-answered` stay put), and applying it twice equals
applying it once. -/

theorem c3_mark_review_absorbing (s : TestSession) (i : Nat) :
    getStatus (markForReviewAndNext s i).statuses i =
      (if (lookupEntry s.answers i).isSome then "review-answered" else "review") ∧
      markForReviewAndNext (markForReviewAndNext s i) i = markForReviewAndNext s i := by
  constructor
  · rw [markForReviewAndNext_statuses]
    by_cases h : (lookupEntry s.answers i).isSome
    · rw [if_pos h, if_pos h, getStatus_setEntry _ _ _ (by decide), if_pos rfl]
    · rw [if_neg h, if_neg h, getStatus_setEntry _ _ _ (by decide), if_pos rfl]
  · by_cases h : (lookupEntry s.answers i).isSome <;>
      simp [markForReviewAndNext, h, setEntry_setEntry]

/-! ### Claims about submission -/

/-- Appending an attempt record grows exactly the target set's history. -/

theorem getRCSetAttempts_save (attempts : List (Nat × List AttemptEntry))
    (setId : Nat) (a : AttemptEntry) (now : Int) :
    getRCSetAttempts (saveRCSetAttempt attempts setId a now) setId =
      getRCSetAttempts attempts setId ++ [{ a with timestamp := now }] := by
  unfold saveRCSetAttempt getRCSetAttempts
  rw [lookupEntry_setEntry_self]
  rfl

/-- C4 counterexample: submitting the sample session twice is not a no-op —
the second call changes the state again and the set's attempt history holds
two records, where the claim says one per session. -/

theorem c4_counterexample :
    submitTest (submitTest sampleAppState 5000) 5000 ≠ submitTest sampleAppState 5000 ∧
      (getRCSetAttempts (submitTest (submitTest sampleAppState 5000) 5000).attempts 1).length =
        2 ∧
      (getRCSetAttempts (submitTest sampleAppState 5000).attempts 1).length = 1 := by
  refine ⟨by decide, by decide, by decide⟩

/-- C4 (amended): `submitTest` is unguarded — every call appends exactly one
attempt record to the submitted set's history (so a second call with no
intervening action appends a second record rather than being a no-op; only
the navigation away from the page prevents that in practice), and each call
marks the test completed and submitted. -/

theorem c4_submit_appends_each_call (s : AppState) (now : Int) :
    (getRCSetAttempts (submitTest s now).attempts s.rcSetId).length =
      (getRCSetAttempts s.attempts s.rcSetId).length + 1 ∧
      (submitTest s now).testCompleted = true ∧
      (submitTest s now).isTestSubmitted = true := by
  refine ⟨?_, rfl, rfl⟩
  show (getRCSetAttempts (saveRCSetAttempt s.attempts s.rcSetId _ now) s.rcSetId).length = _
  rw [getRCSetAttempts_save]
  simp

/-! ### Claims about analytics -/

/-- Members of an insertion are the inserted row or old members. -/

theorem mem_insertByAccuracy {x y : TagInsight} :
    ∀ {l : List TagInsight}, y ∈ insertByAccuracy x l → y = x ∨ y ∈ l := by
  intro l
  induction l with
  | nil => simp [insertByAccuracy]
  | cons z zs ih =>
      unfold insertByAccuracy
      split_ifs
      · intro h
        rcases List.mem_cons.mp h with h2 | h2
        · exact Or.inl h2
        · exact Or.inr h2
      · intro h
        rcases List.mem_cons.mp h with h2 | h2
        · exact Or.inr (List.mem_cons.mpr (Or.inl h2))
        · rcases ih h2 with h3 | h3
          · exact Or.inl h3
          · exact Or.inr (List.mem_cons.mpr (Or.inr h3))

/-- Sorting permutes membership downward: a member of the sorted list was in
the input. -/

theorem mem_sortByAccuracy {y : TagInsight} :
    ∀ {l : List TagInsight}, y ∈ sortByAccuracy l → y ∈ l := by
  intro l
  induction l with
  | nil => simp [sortByAccuracy]
  | cons z zs ih =>
      unfold sortByAccuracy
      intro h
      rcases mem_insertByAccuracy h with h2 | h2
      · exact List.mem_cons.mpr (Or.inl h2)
      · exact List.mem_cons.mpr (Or.inr (ih h2))

/-- Insertion into an accuracy-sorted list keeps it sorted. -/

theorem pairwise_insertByAccuracy (x : TagInsight) :
    ∀ {l : List TagInsight},
      l.Pairwise (fun a b => a.accuracy ≤ b.accuracy) →
      (insertByAccuracy x l).Pairwise (fun a b => a.accuracy ≤ b.accuracy) := by
  intro l
  induction l with
  | nil =>
      intro _
      simp [insertByAccuracy]
  | cons z zs ih =>
      intro h
      rw [List.pairwise_cons] at h
      obtain ⟨hz, hzs⟩ := h
      unfold insertByAccuracy
      split_ifs with hle
      · rw [List.pairwise_cons]
        refine ⟨?_, List.pairwise_cons.mpr ⟨hz, hzs⟩⟩
        intro b hb
        rcases List.mem_cons.mp hb with h2 | h2
        · rw [h2]
          exact hle
        · exact le_trans hle (hz b h2)
      · rw [List.pairwise_cons]
        refine ⟨?_, ih hzs⟩
        intro b hb
        rcases mem_insertByAccuracy hb with h2 | h2
        · rw [h2]
          omega
        · exact hz b h2

/-- The insertion sort sorts ascending by accuracy. -/

theorem pairwise_sortByAccuracy :
    ∀ (l : List TagInsight),
      (sortByAccuracy l).Pairwise (fun a b => a.accuracy ≤ b.accuracy)
  | [] => by simp [sortByAccuracy]
  | z :: zs => by
      unfold sortByAccuracy
      exact pairwise_insertByAccuracy z (pairwise_sortByAccuracy zs)

/-- C9: every row `getTagInsights` returns has at least 5 attempts, carries
the accuracy `round(100 * correct / attempted)` of its tag's tally, and the
returned list is sorted ascending by accuracy. -/

theorem c9_tag_insights (attempts : List AnalyticsAttempt) :
    (∀ e ∈ getTagInsights attempts, 5 ≤ e.attempted ∧
      ∃ correct, (e.tag, TagStat.mk e.attempted correct) ∈ collectTagStats attempts ∧
        e.accuracy = roundPercent correct e.attempted) ∧
    (getTagInsights attempts).Pairwise (fun a b => a.accuracy ≤ b.accuracy) := by
  constructor
  · intro e he
    unfold getTagInsights at he
    have he2 := mem_sortByAccuracy he
    rw [List.mem_filter] at he2
    obtain ⟨hmem, h5⟩ := he2
    have h5' : 5 ≤ e.attempted := by simpa using h5
    rw [List.mem_map] at hmem
    obtain ⟨p, hp, rfl⟩ := hmem
    refine ⟨h5', p.2.correct, ?_, ?_⟩
    · show (p.1, TagStat.mk (insightOfStat p).attempted p.2.correct) ∈ _
      have : TagStat.mk (insightOfStat p).attempted p.2.correct = p.2 := rfl
      rw [this]
      exact hp
    · show (insightOfStat p).accuracy = _
      unfold insightOfStat at h5' ⊢
      have hpos : 0 < p.2.attempted := by
        simp only at h5'
        omega
      simp [hpos]
  · unfold getTagInsights
    exact pairwise_sortByAccuracy _

/-- C9 witness: on the five-question sample history the single `inference`
row has 5 attempts and accuracy `round(100 * 3 / 5) = 60`. -/

theorem c9_witness :
    5 ≤ (TagInsight.mk "inference" 5 60).attempted ∧
      ∃ correct, (("inference" : String), TagStat.mk 5 correct) ∈
          collectTagStats sampleAttempts ∧
        (TagInsight.mk "inference" 5 60).accuracy = roundPercent correct 5 :=
  (c9_tag_insights sampleAttempts).1 ⟨"inference", 5, 60⟩ (by decide)
